import Mathlib

/-!
Shallow embedding of the terragrunt catalog remote-module retrieval engine.

The `Catalog` namespace embeds the module-level clone pipeline of
`cli/commands/run/command.go` (package `module`): `NewRepo`, `clone`,
`resolveCloneURL`, `handleLocalDir`, `prepareCloneDirectory`,
`extractRepoName`, `shouldCleanupIncompleteClone`, `performClone`,
`parseRemoteURL`, `parseBranchName`.

External effects (filesystem, subprocesses, go-getter, the CAS engine) are
modelled by an explicit filesystem state `FS` (sets of existing directory
and file paths) plus a `World` of oracles giving each external call's
outcome, so the pipeline becomes a pure state-passing function.

The `Cas` and `Cln` namespaces model the content store and git process
client, whose implementations are not among the provided sources (only
their tests and benchmark callers are); those definitions are modelled
from the spec, as marked on each.
-/

namespace Catalog

/-- A filesystem path, as a list of components (`filepath.Join a b` is
`a ++ [b]`). -/
abbrev Path := List String

/-- Membership of a path in a list of paths. -/
def listHas : List Path → Path → Bool
  | [], _ => false
  | q :: qs, p => if q = p then true else listHas qs p

/-- Every element of the first list occurs in the second. -/
def allIn : List Path → List Path → Bool
  | [], _ => true
  | p :: ps, ys => listHas ys p && allIn ps ys

/-- `pathUnder root q`: `root` is a (component-wise) ancestor-or-self of `q`;
the set of paths `os.RemoveAll(root)` deletes. -/
def pathUnder : Path → Path → Bool
  | [], _ => true
  | _ :: _, [] => false
  | a :: as, b :: bs => if a = b then pathUnder as bs else false

/-- The final component of a path, if any. -/
def lastName : Path → Option String
  | [] => none
  | [x] => some x
  | _ :: xs => lastName xs

/-- Paths surviving `os.RemoveAll root`. -/
def removeUnder (root : Path) : List Path → List Path
  | [] => []
  | q :: qs => if pathUnder root q then removeUnder root qs else q :: removeUnder root qs

/-- The constant `cloneCompleteSentinel = ".catalog-clone-complete"`. -/
def cloneCompleteSentinel : String := ".catalog-clone-complete"

/-- The paths in a list that are completion-marker files (final component is
the sentinel filename). -/
def markersOf : List Path → List Path
  | [] => []
  | p :: ps =>
    if lastName p = some cloneCompleteSentinel then p :: markersOf ps else markersOf ps

/-- Filesystem state: the sets of existing directories and files. -/
structure FS where
  dirs : List Path
  files : List Path
deriving DecidableEq

/-- `files.FileExists` of the Go `files` helper: the path exists (as a
directory or as a regular file). -/
def FS.fileExists (fs : FS) (p : Path) : Bool :=
  listHas fs.dirs p || listHas fs.files p

/-- Effect of `os.MkdirAll p`. -/
def FS.mkdirAll (fs : FS) (p : Path) : FS :=
  { fs with dirs := p :: fs.dirs }

/-- Effect of `os.RemoveAll p`: `p` and everything under it is removed. -/
def FS.removeAll (fs : FS) (p : Path) : FS :=
  { dirs := removeUnder p fs.dirs, files := removeUnder p fs.files }

/-- Effect of `os.Create p` (creating an empty file). -/
def FS.create (fs : FS) (p : Path) : FS :=
  { fs with files := p :: fs.files }

/-- Effect of a fetch that materializes the relative paths `rels` under the
directory `root` (go-getter or the CAS engine writing a working tree). -/
def FS.addUnder (fs : FS) (root : Path) (rels : List Path) : FS :=
  { dirs := root :: fs.dirs, files := rels.map (fun r => root ++ r) ++ fs.files }

/-- The completion-marker files present in the filesystem. -/
def FS.markers (fs : FS) : List Path := markersOf fs.files

/-- Every completion-marker file of `new` was already present in `old`:
no new marker was written. -/
def noNewMarkers (old new : FS) : Bool := allIn new.markers old.markers

/-- A fetched relative path is nonempty and is not named like the
completion marker (the sentinel filename is private to the package; fetched
repository content never uses it). -/
def relClean (r : Path) : Bool :=
  if r = [] then false
  else if lastName r = some cloneCompleteSentinel then false
  else true

/-- All relative paths in a list are clean in the sense of `relClean`. -/
def relsClean : List Path → Bool
  | [] => true
  | r :: rs => relClean r && relsClean rs

/-- Character-level equality test used to embed Go string operations. -/
def startsWithChars : List Char → List Char → Bool
  | _, [] => true
  | [], _ :: _ => false
  | a :: as, b :: bs => if a = b then startsWithChars as bs else false

/-- `strings.HasPrefix s pre`. -/
def strStarts (s pre : String) : Bool := startsWithChars s.data pre.data

/-- `strings.TrimPrefix s pre`. -/
def trimPre (s pre : String) : String :=
  if strStarts s pre then String.mk (s.data.drop pre.data.length) else s

/-- The `cas://` URL scheme checked by `NewRepo`. -/
def casScheme : String := "cas://"

/-- The `Repo` struct of the `module` package (logger and
`walkWithSymlinks` omitted: they do not affect the clone pipeline). -/
structure Repo where
  cloneURL : String
  path : Path
  RemoteURL : String
  BranchName : String
  useCAS : Bool
deriving DecidableEq

/-- The `CloneOptions` struct (context and logger omitted). -/
structure CloneOptions where
  SourceURL : String
  TargetPath : Path
deriving DecidableEq

/-- Errors of the clone pipeline, one per failing call site. -/
inductive CloneErr where
  | osGetwd
  | filepathAbs
  | mkdirAllErr
  | removeAllErr
  | casNewErr
  | casCloneErr
  | toSourceURLErr
  | getterGetErr
  | createSentinelErr
  | casNotAllowed
  | parseRemoteErr
  | parseBranchErr
deriving DecidableEq

/-- Oracle for every external call the pipeline makes: the working
directory, which URL strings denote existing local directories, path
parsing/absolutization, the `repoNameFromCloneURLReg` capture, and the
success/effect of each filesystem, go-getter and CAS call. -/
structure World where
  cwd : String
  cwdOk : Bool
  isLocalDir : String → Bool
  isAbs : String → Bool
  absOk : Bool
  absPath : String → Path
  parsePath : String → Path
  repoNameMatch : String → Option String
  mkdirAllOk : Bool
  removeAllOk : Bool
  casNewOk : Bool
  casCloneOk : String → Bool
  casFetched : List Path
  casDebris : List Path
  toSourceURL : String → Option String
  getterOk : Bool
  fetched : List Path
  fetchedDebris : List Path
  createOk : Bool
  parseRemoteOk : Bool
  parseRemoteRes : String
  parseBranchOk : Bool
  parseBranchRes : String

/-- No fetched or partially-fetched relative path of the world is named
like the completion marker. -/
def sentinelFreeW (w : World) : Bool :=
  relsClean w.casFetched && relsClean w.casDebris &&
  relsClean w.fetched && relsClean w.fetchedDebris

/-- `Repo.resolveCloneURL`: an empty configured clone URL resolves to the
process's current working directory (`os.Getwd`). -/
def resolveCloneURL (w : World) (repo : Repo) : Except CloneErr String :=
  if repo.cloneURL = "" then
    if w.cwdOk then Except.ok w.cwd else Except.error CloneErr.osGetwd
  else Except.ok repo.cloneURL

/-- `Repo.handleLocalDir`: a relative path is made absolute
(`filepath.Abs`), an absolute one is used as is; either way `repo.path`
becomes that directory and no other effect happens. -/
def handleLocalDir (w : World) (repo : Repo) (repoPath : String) : Except CloneErr Repo :=
  if !(w.isAbs repoPath) then
    if w.absOk then Except.ok { repo with path := w.absPath repoPath }
    else Except.error CloneErr.filepathAbs
  else Except.ok { repo with path := w.parsePath repoPath }

/-- `Repo.extractRepoName`: the first capture of
`repoNameFromCloneURLReg.FindStringSubmatch(repo.cloneURL)` when the match
succeeds with a nonempty capture, else the literal `temp`. The regex match
itself is supplied by the world oracle `repoNameMatch`. -/
def extractRepoName (w : World) (repo : Repo) : String :=
  match w.repoNameMatch repo.cloneURL with
  | some m => if m = "" then "temp" else m
  | none => "temp"

/-- `Repo.shouldCleanupIncompleteClone`: the repo directory exists but the
completion marker inside it does not. -/
def shouldCleanupIncompleteClone (fs : FS) (repo : Repo) : Bool :=
  fs.fileExists repo.path && !(fs.fileExists (repo.path ++ [cloneCompleteSentinel]))

/-- `Repo.prepareCloneDirectory`: `os.MkdirAll(opts.TargetPath)`, set
`repo.path = filepath.Join(opts.TargetPath, repoName)`, and remove the repo
directory entirely when it exists without the completion marker. -/
def prepareCloneDirectory (w : World) (repo : Repo) (targetPath : Path) (fs : FS) :
    Except CloneErr Repo × FS :=
  if !w.mkdirAllOk then (Except.error CloneErr.mkdirAllErr, fs)
  else
    let fs1 := fs.mkdirAll targetPath
    let repo1 := { repo with path := targetPath ++ [extractRepoName w repo] }
    if shouldCleanupIncompleteClone fs1 repo1 then
      if !w.removeAllOk then (Except.error CloneErr.removeAllErr, fs1)
      else (Except.ok repo1, fs1.removeAll repo1.path)
    else (Except.ok repo1, fs1)

/-- The CAS branch of `Repo.performClone`: `cas.New(opts.SourceURL, ...)`,
`c.Clone()`, then `os.Create` of the sentinel as the last step. A failing
CAS clone may leave partial content (`casDebris`) under the repo path. -/
def performCloneCAS (w : World) (repo : Repo) (opts : CloneOptions) (fs : FS) :
    Except CloneErr Repo × FS :=
  if !w.casNewOk then (Except.error CloneErr.casNewErr, fs)
  else if !(w.casCloneOk opts.SourceURL) then
    (Except.error CloneErr.casCloneErr, fs.addUnder repo.path w.casDebris)
  else
    let fs1 := fs.addUnder repo.path w.casFetched
    if !w.createOk then (Except.error CloneErr.createSentinelErr, fs1)
    else (Except.ok repo, fs1.create (repo.path ++ [cloneCompleteSentinel]))

/-- The go-getter branch of `Repo.performClone`: `tf.ToSourceURL`, update
`repo.cloneURL`, `getter.Get` into `repo.path`, then `os.Create` of the
sentinel as the last step. A failing fetch may leave partial content
(`fetchedDebris`) under the repo path. -/
def performCloneGetter (w : World) (repo : Repo) (opts : CloneOptions) (fs : FS) :
    Except CloneErr Repo × FS :=
  match w.toSourceURL opts.SourceURL with
  | none => (Except.error CloneErr.toSourceURLErr, fs)
  | some sourceURL =>
    let repo1 := { repo with cloneURL := sourceURL }
    if !w.getterOk then
      (Except.error CloneErr.getterGetErr, fs.addUnder repo1.path w.fetchedDebris)
    else
      let fs1 := fs.addUnder repo1.path w.fetched
      if !w.createOk then (Except.error CloneErr.createSentinelErr, fs1)
      else (Except.ok repo1, fs1.create (repo1.path ++ [cloneCompleteSentinel]))

/-- `Repo.performClone`: the CAS engine when `repo.useCAS`, go-getter
otherwise; in both branches the completion marker is created only after the
fetch succeeded. -/
def performClone (w : World) (repo : Repo) (opts : CloneOptions) (fs : FS) :
    Except CloneErr Repo × FS :=
  if repo.useCAS then performCloneCAS w repo opts fs
  else performCloneGetter w repo opts fs

/-- `Repo.clone` after URL resolution: local-directory bypass when the URL
denotes an existing directory, else prepare the clone directory and perform
the clone. -/
def cloneResolved (w : World) (repo : Repo) (cloneURL : String) (fs : FS) :
    Except CloneErr Repo × FS :=
  if w.isLocalDir cloneURL then (handleLocalDir w repo cloneURL, fs)
  else
    match prepareCloneDirectory w repo repo.path fs with
    | (Except.error e, fs1) => (Except.error e, fs1)
    | (Except.ok repo1, fs1) =>
      performClone w repo1 { SourceURL := cloneURL, TargetPath := repo.path } fs1

/-- `Repo.clone`: resolve the clone URL, then `cloneResolved`. -/
def clone (w : World) (repo : Repo) (fs : FS) : Except CloneErr Repo × FS :=
  match resolveCloneURL w repo with
  | Except.error e => (Except.error e, fs)
  | Except.ok url => cloneResolved w repo url fs

/-- The steps of `NewRepo` after the `Repo` struct is built: `clone`, then
`parseRemoteURL`, then `parseBranchName` (the two parses read the
materialized git metadata files; their outcome is supplied by the world
oracle, the parsers themselves are embedded below as pure functions). -/
def NewRepoAfter (w : World) (repo : Repo) (fs : FS) : Except CloneErr Repo × FS :=
  match clone w repo fs with
  | (Except.error e, fs1) => (Except.error e, fs1)
  | (Except.ok repo1, fs1) =>
    if w.parseRemoteOk then
      if w.parseBranchOk then
        (Except.ok { repo1 with RemoteURL := w.parseRemoteRes,
                                BranchName := w.parseBranchRes }, fs1)
      else (Except.error CloneErr.parseBranchErr, fs1)
    else (Except.error CloneErr.parseRemoteErr, fs1)

/-- `NewRepo`: strip a `cas://` scheme (rejecting it when CAS is not
allowed), build the `Repo`, and run clone plus metadata parsing. -/
def NewRepo (w : World) (cloneURL : String) (tempDir : Path) (allowCAS : Bool)
    (fs : FS) : Except CloneErr Repo × FS :=
  if strStarts cloneURL casScheme then
    let cloneURL1 := trimPre cloneURL casScheme
    if !allowCAS then (Except.error CloneErr.casNotAllowed, fs)
    else
      NewRepoAfter w { cloneURL := cloneURL1, path := tempDir, RemoteURL := "",
                       BranchName := "", useCAS := true } fs
  else
    NewRepoAfter w { cloneURL := cloneURL, path := tempDir, RemoteURL := "",
                     BranchName := "", useCAS := false } fs

/-- An INI file as loaded by `ini.Load`: the ordered section list (name and
key/value pairs), as reported by `SectionStrings()`. -/
structure IniFile where
  sections : List (String × List (String × String))
deriving DecidableEq

/-- `SectionStrings()`: the section names in order. -/
def IniFile.sectionStrings (ini : IniFile) : List String :=
  ini.sections.map Prod.fst

/-- Lookup of a section body by name (first match, as in go-ini). -/
def lookupSection : List (String × List (String × String)) → String → Option (List (String × String))
  | [], _ => none
  | s :: ss, name => if s.fst = name then some s.snd else lookupSection ss name

/-- Lookup of a key's value in a section body; go-ini's `Key(...).String()`
yields the empty string when the key is absent. -/
def lookupKey : List (String × String) → String → String
  | [], _ => ""
  | kv :: kvs, key => if kv.fst = key then kv.snd else lookupKey kvs key

/-- `inidata.Section(name).Key(key).String()`. -/
def IniFile.sectionKey (ini : IniFile) (name key : String) : String :=
  match lookupSection ini.sections name with
  | some kvs => lookupKey kvs key
  | none => ""

/-- The section-name literal `remote "origin"`. -/
def originSection : String := "remote \"origin\""

/-- The section-name prefix `remote` tested with `strings.HasPrefix`. -/
def remoteWord : String := "remote"

/-- The key name `url`. -/
def urlKey : String := "url"

/-- The loop of `parseRemoteURL` over `SectionStrings()`: skip names not
starting with `remote`; otherwise assign the name, breaking out as soon as
the name is exactly `remote "origin"`. The loop variable therefore ends as
the origin section if one occurs, else as the last remote-named section. -/
def pickRemoteSection : List String → String
  | [] => ""
  | name :: rest =>
    if !(strStarts name remoteWord) then pickRemoteSection rest
    else if name = originSection then name
    else
      let r := pickRemoteSection rest
      if r = "" then name else r

/-- `Repo.parseRemoteURL` given the loaded `.git/config` INI data: when a
remote section was selected, set `RemoteURL` to its `url` key; when no git
remotes were found, leave the repo unchanged (nil error). -/
def parseRemoteURL (repo : Repo) (ini : IniFile) : Repo :=
  let sectionName := pickRemoteSection ini.sectionStrings
  if sectionName = "" then repo
  else { repo with RemoteURL := ini.sectionKey sectionName urlKey }

/-- Whether a character occurs in a character list. -/
def hasChar (ch : Char) : List Char → Bool
  | [] => false
  | a :: as => if a = ch then true else hasChar ch as

/-- The suffix of a character list after its last `/` (the whole list when
no `/` occurs): the capture group of `gitHeadBranchNameReg =
^.*?([^/]+)$`. -/
def afterLastSlash : List Char → List Char
  | [] => []
  | c :: rest =>
    if hasChar '/' rest then afterLastSlash rest
    else if c = '/' then rest
    else c :: rest

/-- Whether a newline occurs strictly before the last `/` of a character
list (such content cannot be matched by `gitHeadBranchNameReg`, since `.`
does not match newline and `^`/`$` anchor to the whole text). -/
def newlineBeforeSlash : List Char → Bool
  | [] => false
  | c :: rest =>
    if hasChar '/' rest then (if c = '\n' then true else newlineBeforeSlash rest)
    else false

/-- `gitHeadBranchNameReg.FindStringSubmatch` under Go's leftmost-first
semantics: the capture is the (nonempty) suffix after the last `/`,
provided no newline precedes that suffix; `none` when the regex does not
match. -/
def headBranchMatch (s : List Char) : Option (List Char) :=
  let suffix := afterLastSlash s
  if suffix = [] then none
  else if newlineBeforeSlash s then none
  else some suffix

/-- Unicode-space test of `strings.TrimSpace` restricted to the ASCII
whitespace characters. -/
def isSpaceChar (c : Char) : Bool :=
  if c = ' ' then true
  else if c = '\t' then true
  else if c = '\n' then true
  else if c = '\r' then true
  else false

/-- Remove leading whitespace characters. -/
def trimLeft : List Char → List Char
  | [] => []
  | c :: rest => if isSpaceChar c then trimLeft rest else c :: rest

/-- `strings.TrimSpace`: remove leading and trailing whitespace. -/
def trimChars (s : List Char) : List Char :=
  trimLeft ((trimLeft s.reverse).reverse)

/-- No character of the list is whitespace. -/
def noSpaceChars : List Char → Bool
  | [] => true
  | c :: cs => if isSpaceChar c then false else noSpaceChars cs

/-- Failure of `parseBranchName` when the regex does not match. -/
inductive ParseErr where
  | noBranchName
deriving DecidableEq

/-- `Repo.parseBranchName` given the content of the materialized `.git/HEAD`
file: on a regex match, `BranchName` becomes the whitespace-trimmed capture;
otherwise the `could not get branch name` error. -/
def parseBranchName (repo : Repo) (headContent : List Char) : Except ParseErr Repo :=
  match headBranchMatch headContent with
  | some m => Except.ok { repo with BranchName := String.mk (trimChars m) }
  | none => Except.error ParseErr.noBranchName

/-- The `ref: refs/heads/` prefix of a symbolic `.git/HEAD` file. -/
def refHeadsPre : List Char := "ref: refs/heads/".data

/-- A symbolic `.git/HEAD` content `ref: refs/heads/<branch>`. -/
def headRefContent (branch : List Char) : List Char := refHeadsPre ++ branch

end Catalog

namespace Cas

/-- Byte payloads, as lists of byte values. -/
abbrev Bytes := List Nat

/-- Modelled from the spec: the `ContentStore` implementation
(`internal/cas` content store) is not among the provided sources — only its
benchmark callers are. Per the spec (§3, §4.2) it is a content-addressed
map from caller-supplied keys (normally blob hashes) to exactly the bytes
given. -/
structure ContentStore where
  entries : List (String × Bytes)
deriving DecidableEq

/-- Modelled from the spec: reading the stored bytes for a key. -/
def ContentStore.read (s : ContentStore) (k : String) : Option Bytes :=
  match s.entries.find? (fun e => e.fst = k) with
  | some e => some e.snd
  | none => none

/-- Modelled from the spec: `Store(key, data)` is a no-op returning success
when the key already exists (dedup hit: no re-write, no
"already exists" error); otherwise the bytes are written, which can fail
only with an underlying filesystem error (the `writeOk` oracle). -/
def ContentStore.Store (writeOk : Bool) (s : ContentStore) (k : String) (v : Bytes) :
    Except String ContentStore :=
  match s.read k with
  | some _ => Except.ok s
  | none =>
    if writeOk then Except.ok { entries := (k, v) :: s.entries }
    else Except.error "write failed"

end Cas

namespace Cln

/-- One row of `ls-remote` output: `{Hash, Ref}`. -/
structure GitRef where
  Hash : String
  Ref : String
deriving DecidableEq

/-- One row of recursive `ls-tree` output. The Go field `Type`
(blob|tree|commit) is named `Kind` here because `Type` is a Lean keyword. -/
structure TreeEntry where
  Path : String
  Kind : String
  Mode : String
  Hash : String
deriving DecidableEq

/-- The closed error taxonomy of the git process client (§7), compared by
sentinel identity. -/
inductive GitErr where
  | ErrNoWorkDir
  | ErrCommandSpawn
  | ErrNoMatchingReference
  | ErrGitClone
  | ErrReadTree
deriving DecidableEq

/-- Modelled from the spec: the state of a remote as the protocol client
can observe it — unreachable (also misnamed or auth-unavailable), or
reachable with its list of refs. -/
inductive Remote where
  | unreachable
  | reachable (refs : List GitRef)

/-- Modelled from the spec: the state of a bound local repository for
`LsTree` — not a valid/nonempty repository or unresolvable ref, or a valid
tree listing. -/
inductive LocalRepo where
  | invalid
  | valid (entries : List TreeEntry)

/-- Modelled from the spec: the `GitRunner` (GitProcessClient), stateless
except for an optional bound working directory. The implementation
(`internal/cln` / `internal/cas` git runner) is not among the provided
sources — only its tests are. -/
structure GitRunner where
  workDir : Option String
deriving DecidableEq

/-- Modelled from the spec: `NewGitRunner()` returns an unbound client. -/
def NewGitRunner : GitRunner := { workDir := none }

/-- Modelled from the spec: `WithWorkDir` returns a new client bound to the
path (value semantics, no mutation of the receiver). -/
def GitRunner.WithWorkDir (g : GitRunner) (p : String) : GitRunner :=
  { g with workDir := some p }

/-- Modelled from the spec: `RequiresWorkDir` succeeds exactly when a
working directory is bound, failing with `ErrNoWorkDir` otherwise. -/
def GitRunner.RequiresWorkDir (g : GitRunner) : Except GitErr Unit :=
  match g.workDir with
  | some _ => Except.ok ()
  | none => Except.error GitErr.ErrNoWorkDir

/-- Modelled from the spec: `LsRemote(remoteURL, refPattern)` needs no
working directory; it fails with `ErrCommandSpawn` when the remote is
unreachable/misnamed/auth-unavailable, with `ErrNoMatchingReference` when
the reachable remote has no ref matching the pattern, and returns the
matching refs otherwise. -/
def GitRunner.LsRemote (_g : GitRunner) (remote : Remote) (refPattern : String) :
    Except GitErr (List GitRef) :=
  match remote with
  | Remote.unreachable => Except.error GitErr.ErrCommandSpawn
  | Remote.reachable refs =>
    match refs.filter (fun r => r.Ref = refPattern) with
    | [] => Except.error GitErr.ErrNoMatchingReference
    | m => Except.ok m

/-- Modelled from the spec: `Clone(remoteURL, shallow, depth, branch)`
requires a bound working directory (`ErrNoWorkDir` otherwise) and fails
with `ErrGitClone` on any underlying failure. -/
def GitRunner.Clone (g : GitRunner) (remote : Remote) (_shallow : Bool)
    (_depth : Nat) (_branch : String) : Except GitErr Unit :=
  match g.workDir with
  | none => Except.error GitErr.ErrNoWorkDir
  | some _ =>
    match remote with
    | Remote.unreachable => Except.error GitErr.ErrGitClone
    | Remote.reachable _ => Except.ok ()

/-- Modelled from the spec: `LsTree(ref, path)` requires a bound working
directory (`ErrNoWorkDir` otherwise) and fails with `ErrReadTree` when the
directory is not a valid repository, is empty, or the ref cannot be
resolved. -/
def GitRunner.LsTree (g : GitRunner) (_ref _treePath : String) (repo : LocalRepo) :
    Except GitErr (List TreeEntry) :=
  match g.workDir with
  | none => Except.error GitErr.ErrNoWorkDir
  | some _ =>
    match repo with
    | LocalRepo.invalid => Except.error GitErr.ErrReadTree
    | LocalRepo.valid entries => Except.ok entries

end Cln

namespace Catalog

/-- A base world for concrete runs: every external call succeeds, no URL is
a local directory, the repo-name regex captures `repo`, fetch materializes
one file `a.txt`. -/
def wBase : World :=
  { cwd := "/cwd", cwdOk := true,
    isLocalDir := fun _ => false,
    isAbs := fun _ => true,
    absOk := true,
    absPath := fun _ => [],
    parsePath := fun _ => [],
    repoNameMatch := fun _ => some "repo",
    mkdirAllOk := true, removeAllOk := true,
    casNewOk := true, casCloneOk := fun _ => true,
    casFetched := [["a.txt"]], casDebris := [],
    toSourceURL := fun s => some s,
    getterOk := true,
    fetched := [["a.txt"]], fetchedDebris := [],
    createOk := true,
    parseRemoteOk := true, parseRemoteRes := "", parseBranchOk := true,
    parseBranchRes := "" }

/-- A world where the go-getter fetch fails. -/
def wGetterFails : World := { wBase with getterOk := false }

/-- A world where the URL `/mod` denotes an existing absolute local
directory parsed as the path `[mod]`. -/
def wLocal : World :=
  { wBase with
    isLocalDir := fun s => s == "/mod",
    isAbs := fun s => s == "/mod",
    parsePath := fun _ => ["mod"] }

/-- The empty filesystem. -/
def fsEmpty : FS := { dirs := [], files := [] }

/-- A filesystem where the local source directory `[mod]` exists and holds
no completion marker. -/
def fsLocal : FS := { dirs := [["mod"]], files := [] }

/-- A repository value pointed at a remote URL, targeting `[tmp]`. -/
def repoTmp : Repo :=
  { cloneURL := "https://host/repo.git", path := ["tmp"], RemoteURL := "",
    BranchName := "", useCAS := false }

/-- A repository value pointed at the local directory URL `/mod`. -/
def repoLocal : Repo :=
  { cloneURL := "/mod", path := ["tmp"], RemoteURL := "", BranchName := "",
    useCAS := false }

/-- The repository value `clone` produces on the local bypass for
`repoLocal` under `wLocal`. -/
def repoLocalOut : Repo :=
  { cloneURL := "/mod", path := ["mod"], RemoteURL := "", BranchName := "",
    useCAS := false }

/-- A repository value whose configured clone URL is empty. -/
def repoEmptyURL : Repo :=
  { cloneURL := "", path := ["tmp"], RemoteURL := "", BranchName := "",
    useCAS := false }

/-- A filesystem where the target directory `[t]` and the repo directory
`[t, repo]` exist from an interrupted prior attempt, with no marker. -/
def fsC2 : FS := { dirs := [["t"], ["t", "repo"]], files := [] }

/-- A repository value targeting `[t]`. -/
def repoC2 : Repo :=
  { cloneURL := "https://host/repo.git", path := ["t"], RemoteURL := "",
    BranchName := "", useCAS := false }

/-- The repository value `prepareCloneDirectory` produces for `repoC2`. -/
def repoC2Out : Repo :=
  { cloneURL := "https://host/repo.git", path := ["t", "repo"], RemoteURL := "",
    BranchName := "", useCAS := false }

/-- The filesystem `prepareCloneDirectory` produces for `repoC2` on `fsC2`:
the partial repo directory has been removed. -/
def fsC2Out : FS := { dirs := [["t"], ["t"]], files := [] }

/-- A repository value with all fields empty, input to the parsers. -/
def repoInit : Repo :=
  { cloneURL := "", path := [], RemoteURL := "", BranchName := "", useCAS := false }

/-- A `.git/config` INI with two remote sections, neither of them origin:
`remote "alpha"` first, `remote "beta"` second. -/
def iniTwoRemotes : IniFile :=
  ⟨[("DEFAULT", []),
    ("remote \"alpha\"", [("url", "https://host/alpha.git")]),
    ("remote \"beta\"", [("url", "https://host/beta.git")])]⟩

/-- A `cas://`-schemed clone URL. -/
def urlCas : String := "cas://github.com/acme/mod.git"

end Catalog

namespace Cas

/-- The empty content store. -/
def storeEmpty : ContentStore := ⟨[]⟩

/-- A content store holding one entry for key `k`. -/
def storeOne : ContentStore := ⟨[("k", [1, 2, 3])]⟩

end Cas

namespace Catalog

lemma listHas_iff {xs : List Path} {p : Path} : listHas xs p = true ↔ p ∈ xs := by
  induction xs with
  | nil => simp [listHas]
  | cons q qs ih =>
    simp only [listHas, List.mem_cons]
    by_cases hqp : q = p
    · simp [hqp]
    · have hpq : ¬p = q := fun h => hqp h.symm
      simp [hqp, hpq, ih]

lemma allIn_of_sub {xs ys : List Path} (h : ∀ p, p ∈ xs → p ∈ ys) :
    allIn xs ys = true := by
  induction xs with
  | nil => rfl
  | cons p ps ih =>
    simp only [allIn, Bool.and_eq_true]
    refine ⟨listHas_iff.mpr (h p (by simp)), ih fun q hq => h q (by simp [hq])⟩

lemma mem_markersOf {p : Path} {l : List Path} :
    p ∈ markersOf l ↔ p ∈ l ∧ lastName p = some cloneCompleteSentinel := by
  induction l with
  | nil => simp [markersOf]
  | cons q qs ih =>
    simp only [markersOf]
    by_cases hq : lastName q = some cloneCompleteSentinel
    · rw [if_pos hq]
      simp only [List.mem_cons, ih]
      constructor
      · rintro (rfl | ⟨hm, hl⟩)
        · exact ⟨Or.inl rfl, hq⟩
        · exact ⟨Or.inr hm, hl⟩
      · rintro ⟨rfl | hm, hl⟩
        · exact Or.inl rfl
        · exact Or.inr ⟨hm, hl⟩
    · rw [if_neg hq]
      simp only [List.mem_cons, ih]
      constructor
      · rintro ⟨hm, hl⟩
        exact ⟨Or.inr hm, hl⟩
      · rintro ⟨rfl | hm, hl⟩
        · exact absurd hl hq
        · exact ⟨hm, hl⟩

lemma mem_removeUnder {root p : Path} {l : List Path} (h : p ∈ removeUnder root l) :
    p ∈ l := by
  induction l with
  | nil => simp [removeUnder] at h
  | cons q qs ih =>
    simp only [removeUnder] at h
    by_cases hq : pathUnder root q = true
    · simp only [if_pos hq] at h
      exact List.mem_cons_of_mem _ (ih h)
    · simp only [if_neg hq, List.mem_cons] at h
      rcases h with rfl | h
      · exact List.mem_cons_self _ _
      · exact List.mem_cons_of_mem _ (ih h)

lemma pathUnder_refl (p : Path) : pathUnder p p = true := by
  induction p with
  | nil => rfl
  | cons a as ih => simp [pathUnder, ih]

lemma listHas_removeUnder_self (p : Path) (l : List Path) :
    listHas (removeUnder p l) p = false := by
  induction l with
  | nil => rfl
  | cons q qs ih =>
    simp only [removeUnder]
    by_cases hq : pathUnder p q = true
    · simp [hq, ih]
    · have hne : q ≠ p := fun hqp => hq (hqp ▸ pathUnder_refl p)
      simp [hq, listHas, hne, ih]

lemma lastName_append (as : Path) {bs : Path} (h : bs ≠ []) :
    lastName (as ++ bs) = lastName bs := by
  induction as with
  | nil => rfl
  | cons a as ih =>
    cases hab : as ++ bs with
    | nil =>
      exact absurd (List.append_eq_nil.mp hab).2 h
    | cons c t =>
      simp only [List.cons_append, hab, lastName]
      rw [← hab, ih]

lemma markersOf_append (xs ys : List Path) :
    markersOf (xs ++ ys) = markersOf xs ++ markersOf ys := by
  induction xs with
  | nil => rfl
  | cons p ps ih =>
    simp only [List.cons_append, markersOf]
    by_cases hp : lastName p = some cloneCompleteSentinel
    · simp [hp, ih]
    · simp [hp, ih]

lemma relsClean_mem {rels : List Path} (h : relsClean rels = true) {r : Path}
    (hr : r ∈ rels) : relClean r = true := by
  induction rels with
  | nil => simp at hr
  | cons q qs ih =>
    simp only [relsClean, Bool.and_eq_true] at h
    rcases List.mem_cons.mp hr with rfl | hr
    · exact h.1
    · exact ih h.2 hr

lemma markersOf_map_clean {root : Path} {rels : List Path}
    (h : relsClean rels = true) :
    markersOf (rels.map (fun r => root ++ r)) = [] := by
  induction rels with
  | nil => rfl
  | cons q qs ih =>
    simp only [relsClean, Bool.and_eq_true] at h
    have hq : relClean q = true := h.1
    simp only [relClean] at hq
    by_cases hq0 : q = []
    · simp [hq0] at hq
    · simp only [if_neg hq0] at hq
      by_cases hq1 : lastName q = some cloneCompleteSentinel
      · simp [hq1] at hq
      · simp only [List.map_cons, markersOf, lastName_append root hq0, if_neg hq1]
        exact ih h.2

lemma markers_addUnder {fs : FS} {root : Path} {rels : List Path}
    (h : relsClean rels = true) :
    (fs.addUnder root rels).markers = fs.markers := by
  simp only [FS.addUnder, FS.markers, markersOf_append, markersOf_map_clean h,
    List.nil_append]

end Catalog

namespace Catalog

lemma sentinelFreeW_parts {w : World} (h : sentinelFreeW w = true) :
    relsClean w.casFetched = true ∧ relsClean w.casDebris = true ∧
    relsClean w.fetched = true ∧ relsClean w.fetchedDebris = true := by
  simp only [sentinelFreeW, Bool.and_eq_true] at h
  exact ⟨h.1.1.1, h.1.1.2, h.1.2, h.2⟩

lemma perform_markers_on_error {w : World} {repo : Repo} {opts : CloneOptions}
    {fs : FS} {e : CloneErr} (hw : sentinelFreeW w = true)
    (h : (performClone w repo opts fs).fst = Except.error e) :
    (performClone w repo opts fs).snd.markers = fs.markers := by
  obtain ⟨hcf, hcd, hf, hfd⟩ := sentinelFreeW_parts hw
  simp only [performClone] at h ⊢
  by_cases hcas : repo.useCAS
  · simp only [hcas, if_pos rfl] at h ⊢
    simp only [performCloneCAS] at h ⊢
    by_cases h1 : w.casNewOk
    · simp only [h1] at h ⊢
      by_cases h2 : w.casCloneOk opts.SourceURL
      · simp only [h2] at h ⊢
        by_cases h3 : w.createOk
        · simp [h3] at h
        · simp only [h3] at h ⊢
          simp [markers_addUnder hcf]
      · simp only [h2] at h ⊢
        simp [markers_addUnder hcd]
    · simp [h1]
  · simp only [hcas, if_neg] at h ⊢
    simp only [performCloneGetter] at h ⊢
    cases hts : w.toSourceURL opts.SourceURL with
    | none => simp [hts]
    | some sourceURL =>
      simp only [hts] at h ⊢
      by_cases h2 : w.getterOk
      · simp only [h2] at h ⊢
        by_cases h3 : w.createOk
        · simp [h3] at h
        · simp only [h3] at h ⊢
          simp [markers_addUnder hf]
      · simp only [h2] at h ⊢
        simp [markers_addUnder hfd]

lemma markers_mkdirAll (fs : FS) (p : Path) : (fs.mkdirAll p).markers = fs.markers := rfl

lemma markers_removeAll_sub {fs : FS} {q p : Path}
    (h : p ∈ (fs.removeAll q).markers) : p ∈ fs.markers := by
  simp only [FS.removeAll, FS.markers] at h ⊢
  obtain ⟨hm, hl⟩ := mem_markersOf.mp h
  exact mem_markersOf.mpr ⟨mem_removeUnder hm, hl⟩

lemma prepare_markers_sub {w : World} {repo : Repo} {targetPath : Path} {fs : FS}
    {p : Path} (h : p ∈ (prepareCloneDirectory w repo targetPath fs).snd.markers) :
    p ∈ fs.markers := by
  simp only [prepareCloneDirectory] at h
  by_cases h1 : w.mkdirAllOk
  · simp only [h1] at h
    set repo1 : Repo := { repo with path := targetPath ++ [extractRepoName w repo] }
    by_cases h2 : shouldCleanupIncompleteClone (fs.mkdirAll targetPath) repo1
    · simp only [h2, if_pos] at h
      by_cases h3 : w.removeAllOk
      · simp only [h3] at h
        simp only [Bool.not_true, Bool.false_eq_true, if_false] at h
        exact markers_removeAll_sub h
      · simp only [h3] at h
        simpa [markers_mkdirAll] using h
    · simp only [h2, if_neg] at h
      simpa [markers_mkdirAll] using h
  · simp only [h1] at h
    simpa using h

end Catalog

namespace Catalog

lemma hasChar_cons (ch a : Char) (as : List Char) :
    hasChar ch (a :: as) = (if a = ch then true else hasChar ch as) := rfl

lemma hasChar_cons_false {ch a : Char} {as : List Char}
    (h : hasChar ch (a :: as) = false) : a ≠ ch ∧ hasChar ch as = false := by
  rw [hasChar_cons] at h
  by_cases ha : a = ch
  · simp [ha] at h
  · exact ⟨ha, by simpa [ha] using h⟩

lemma hasChar_slash_cons_self (b : List Char) : hasChar '/' ('/' :: b) = true := by
  simp [hasChar_cons]

lemma hasChar_append_right {ch : Char} (as : List Char) {bs : List Char}
    (h : hasChar ch bs = true) : hasChar ch (as ++ bs) = true := by
  induction as with
  | nil => simpa using h
  | cons a as ih =>
    rw [List.cons_append, hasChar_cons]
    by_cases ha : a = ch
    · simp [ha]
    · simpa [ha] using ih

lemma afterLastSlash_noSlash {s : List Char} (h : hasChar '/' s = false) :
    afterLastSlash s = s := by
  induction s with
  | nil => rfl
  | cons c rest ih =>
    obtain ⟨hc, hrest⟩ := hasChar_cons_false h
    simp [afterLastSlash, hrest, hc]

lemma afterLastSlash_concat (pre : List Char) {b : List Char}
    (hb : hasChar '/' b = false) : afterLastSlash (pre ++ '/' :: b) = b := by
  induction pre with
  | nil =>
    simp [afterLastSlash, hb]
  | cons c pre ih =>
    have hmem : hasChar '/' (pre ++ '/' :: b) = true :=
      hasChar_append_right pre (hasChar_slash_cons_self b)
    rw [List.cons_append]
    simp only [afterLastSlash, hmem, if_pos]
    exact ih

lemma newlineBeforeSlash_noSlash {s : List Char} (h : hasChar '/' s = false) :
    newlineBeforeSlash s = false := by
  cases s with
  | nil => rfl
  | cons c rest =>
    obtain ⟨_, hrest⟩ := hasChar_cons_false h
    simp [newlineBeforeSlash, hrest]

lemma newlineBeforeSlash_concat {pre b : List Char}
    (hp : hasChar '\n' pre = false) (hb : hasChar '/' b = false) :
    newlineBeforeSlash (pre ++ '/' :: b) = false := by
  induction pre with
  | nil =>
    simp [newlineBeforeSlash, hb]
  | cons c pre ih =>
    obtain ⟨hc, hpre⟩ := hasChar_cons_false hp
    have hmem : hasChar '/' (pre ++ '/' :: b) = true :=
      hasChar_append_right pre (hasChar_slash_cons_self b)
    rw [List.cons_append]
    simp only [newlineBeforeSlash, hmem, if_pos, hc, if_neg]
    exact ih hpre

lemma noSpaceChars_cons_false {c : Char} {cs : List Char}
    (h : noSpaceChars (c :: cs) = true) :
    isSpaceChar c = false ∧ noSpaceChars cs = true := by
  by_cases hc : isSpaceChar c = true
  · simp [noSpaceChars, hc] at h
  · have hc' : isSpaceChar c = false := by simpa using hc
    refine ⟨hc', ?_⟩
    simpa [noSpaceChars, hc'] using h

lemma noSpaceChars_append {as bs : List Char} (ha : noSpaceChars as = true)
    (hb : noSpaceChars bs = true) : noSpaceChars (as ++ bs) = true := by
  induction as with
  | nil => simpa using hb
  | cons a as ih =>
    obtain ⟨h1, h2⟩ := noSpaceChars_cons_false ha
    simp [noSpaceChars, h1, ih h2]

lemma noSpaceChars_reverse {s : List Char} (h : noSpaceChars s = true) :
    noSpaceChars s.reverse = true := by
  induction s with
  | nil => simpa using h
  | cons c cs ih =>
    obtain ⟨h1, h2⟩ := noSpaceChars_cons_false h
    rw [List.reverse_cons]
    exact noSpaceChars_append (ih h2) (by simp [noSpaceChars, h1])

lemma trimLeft_noSpace {s : List Char} (h : noSpaceChars s = true) :
    trimLeft s = s := by
  cases s with
  | nil => rfl
  | cons c cs =>
    obtain ⟨h1, _⟩ := noSpaceChars_cons_false h
    simp [trimLeft, h1]

lemma trimChars_noSpace {s : List Char} (h : noSpaceChars s = true) :
    trimChars s = s := by
  rw [trimChars, trimLeft_noSpace (noSpaceChars_reverse h), List.reverse_reverse,
    trimLeft_noSpace h]

lemma headRefContent_eq (branch : List Char) :
    headRefContent branch = "ref: refs/heads".data ++ '/' :: branch := by
  have hsplit : refHeadsPre = "ref: refs/heads".data ++ ['/'] := by decide
  rw [headRefContent, hsplit, List.append_assoc, List.singleton_append]

end Catalog

namespace Catalog

lemma removeAll_not_fileExists (fs : FS) (p : Path) :
    (fs.removeAll p).fileExists p = false := by
  simp [FS.removeAll, FS.fileExists, listHas_removeUnder_self]

/-- Claim C2: at the start of a network clone, a target repo directory that
exists without the completion marker is deleted fully, so every attempt
starts from a directory that is absent or carries the marker, never
partial. -/
theorem prepareCloneDirectory_hygiene (w : World) (repo : Repo) (targetPath : Path)
    (fs : FS) (repo1 : Repo) (fs1 : FS)
    (h : prepareCloneDirectory w repo targetPath fs = (Except.ok repo1, fs1)) :
    fs1.fileExists repo1.path = false ∨
    fs1.fileExists (repo1.path ++ [cloneCompleteSentinel]) = true := by
  simp only [prepareCloneDirectory] at h
  by_cases h1 : w.mkdirAllOk
  · simp only [h1, Bool.not_true, Bool.false_eq_true, if_false] at h
    by_cases h2 : shouldCleanupIncompleteClone (fs.mkdirAll targetPath)
        { repo with path := targetPath ++ [extractRepoName w repo] }
    · rw [if_pos h2] at h
      by_cases h3 : w.removeAllOk
      · simp only [h3, Bool.not_true, Bool.false_eq_true, if_false,
          Prod.mk.injEq, Except.ok.injEq] at h
        obtain ⟨hrepo, hfs⟩ := h
        subst hrepo
        subst hfs
        exact Or.inl (removeAll_not_fileExists _ _)
      · simp [h3] at h
    · rw [if_neg h2] at h
      simp only [Prod.mk.injEq, Except.ok.injEq] at h
      obtain ⟨hrepo, hfs⟩ := h
      subst hrepo
      subst hfs
      have h2' : shouldCleanupIncompleteClone (fs.mkdirAll targetPath)
          { repo with path := targetPath ++ [extractRepoName w repo] } = false := by
        simpa using h2
      rw [shouldCleanupIncompleteClone] at h2'
      cases hex : (fs.mkdirAll targetPath).fileExists
          ({ repo with path := targetPath ++ [extractRepoName w repo] } : Repo).path with
      | false => exact Or.inl rfl
      | true =>
        rw [hex] at h2'
        simp only [Bool.true_and, Bool.not_eq_false'] at h2'
        exact Or.inr h2'
  · simp [h1] at h

/-- Claim C1: whenever any step of a clone run fails, the run returns the
originating error and writes no completion marker: every marker file present
after a failed `clone` was already present before it. -/
theorem clone_fail_writes_no_marker (w : World) (repo : Repo) (fs : FS) (e : CloneErr)
    (hw : sentinelFreeW w = true)
    (h : (clone w repo fs).fst = Except.error e) :
    noNewMarkers fs (clone w repo fs).snd = true := by
  rw [noNewMarkers]
  apply allIn_of_sub
  intro p hp
  simp only [clone] at h hp
  cases hres : resolveCloneURL w repo with
  | error e1 =>
    rw [hres] at hp
    exact hp
  | ok url =>
    rw [hres] at h hp
    simp only [cloneResolved] at h hp
    by_cases hld : w.isLocalDir url
    · rw [if_pos hld] at hp
      exact hp
    · rw [if_neg hld] at h hp
      cases hprep : prepareCloneDirectory w repo repo.path fs with
      | mk res fs1 =>
        rw [hprep] at h hp
        cases res with
        | error e2 =>
          exact @prepare_markers_sub w repo repo.path fs p (by rw [hprep]; exact hp)
        | ok repo1 =>
          have hmk : (performClone w repo1
              { SourceURL := url, TargetPath := repo.path } fs1).snd.markers
              = fs1.markers := perform_markers_on_error hw h
          rw [hmk] at hp
          exact @prepare_markers_sub w repo repo.path fs p (by rw [hprep]; exact hp)

end Catalog

namespace Catalog

/-- Counterexample to claim C5 as stated: a successful Clone over an
existing local source directory (the bypass path) leaves that directory
without a completion marker, so it does not satisfy the "complete"
condition. -/
theorem clone_localDir_bypass_counterexample :
    (clone wLocal repoLocal fsLocal).fst = Except.ok repoLocalOut ∧
    (clone wLocal repoLocal fsLocal).snd.fileExists
      (["mod", cloneCompleteSentinel]) = false := by
  exact ⟨rfl, rfl⟩

/-- Claim C5 (amended): on the local-directory-bypass path, Clone
uses/normalizes that directory directly as the result and returns with the
filesystem untouched — in particular without writing the completion
marker. -/
theorem clone_localDir_bypass (w : World) (repo : Repo) (url : String) (fs : FS)
    (h1 : resolveCloneURL w repo = Except.ok url)
    (h2 : w.isLocalDir url = true) :
    clone w repo fs = (handleLocalDir w repo url, fs) := by
  simp [clone, h1, cloneResolved, h2]

/-- Claim C8: an empty configured clone URL resolves to the process's
current working directory, and the rest of the clone algorithm runs with
that directory as the source. -/
theorem resolve_empty_uses_cwd (w : World) (repo : Repo) (fs : FS)
    (h1 : repo.cloneURL = "") (h2 : w.cwdOk = true) :
    resolveCloneURL w repo = Except.ok w.cwd ∧
    clone w repo fs = cloneResolved w repo w.cwd fs := by
  have hres : resolveCloneURL w repo = Except.ok w.cwd := by
    simp [resolveCloneURL, h1, h2]
  exact ⟨hres, by simp [clone, hres]⟩

/-- Claim C10: for a `cas://`-schemed clone URL, `NewRepo` fails without
constructing a repository when CAS is not allowed; when allowed, the scheme
is stripped before cloning, the repository is built with `useCAS` set, and
`performClone` for such a repository runs the CAS engine branch. -/
theorem newRepo_casScheme (w : World) (url : String) (tempDir : Path) (fs : FS)
    (h : strStarts url casScheme = true) :
    NewRepo w url tempDir false fs = (Except.error CloneErr.casNotAllowed, fs) ∧
    NewRepo w url tempDir true fs =
      NewRepoAfter w { cloneURL := trimPre url casScheme, path := tempDir,
                       RemoteURL := "", BranchName := "", useCAS := true } fs ∧
    performClone w
      { cloneURL := trimPre url casScheme, path := tempDir, RemoteURL := "",
        BranchName := "", useCAS := true }
      { SourceURL := trimPre url casScheme, TargetPath := tempDir } fs =
    performCloneCAS w
      { cloneURL := trimPre url casScheme, path := tempDir, RemoteURL := "",
        BranchName := "", useCAS := true }
      { SourceURL := trimPre url casScheme, TargetPath := tempDir } fs := by
  refine ⟨?_, ?_, ?_⟩
  · simp [NewRepo, h]
  · simp [NewRepo, h]
  · simp [performClone]

/-- Claim C4, evaluated at the failing input: on a git config with two
remote sections and no origin section, `parseRemoteURL` sets `RemoteURL`
to the url of the last remote section, not the first — contradicting both
the claim and the function's own doc comment. -/
theorem parseRemoteURL_last_remote_wins :
    (parseRemoteURL repoInit iniTwoRemotes).RemoteURL = "https://host/beta.git" ∧
    (parseRemoteURL repoInit iniTwoRemotes).RemoteURL ≠ "https://host/alpha.git" := by
  constructor
  · decide
  · decide

/-- Claim C9: on symbolic HEAD content `ref: refs/heads/<branch>` with a
slash-free branch, `parseBranchName` succeeds with the whitespace-trimmed
branch; on raw-hash content it succeeds with the hash itself. -/
theorem parseBranchName_headFormats (repo : Repo) (branch hash : List Char)
    (h1 : branch ≠ []) (h2 : hasChar '/' branch = false)
    (h3 : hash ≠ []) (h4 : hasChar '/' hash = false)
    (h5 : noSpaceChars hash = true) :
    parseBranchName repo (headRefContent branch) =
      Except.ok { repo with BranchName := String.mk (trimChars branch) } ∧
    parseBranchName repo hash =
      Except.ok { repo with BranchName := String.mk hash } := by
  have hpre : hasChar '\n' ("ref: refs/heads".data) = false := by decide
  constructor
  · have hmatch : headBranchMatch (headRefContent branch) = some branch := by
      rw [headRefContent_eq]
      simp only [headBranchMatch, afterLastSlash_concat _ h2,
        newlineBeforeSlash_concat hpre h2]
      simp [h1]
    simp only [parseBranchName, hmatch]
  · have hmatch : headBranchMatch hash = some hash := by
      simp only [headBranchMatch, afterLastSlash_noSlash h4,
        newlineBeforeSlash_noSlash h4]
      simp [h3]
    simp only [parseBranchName, hmatch, trimChars_noSpace h5]

end Catalog

namespace Cas

/-- Claim C3: a second `Store(k, v)` after a successful one succeeds
regardless of the filesystem-write oracle, leaves the store unchanged, and
a subsequent read of `k` returns `v` (the store is keyed by content hashes,
so `k` is fresh or already bound to `v`). -/
theorem store_idempotent (w1 w2 : Bool) (s : ContentStore) (k : String)
    (v : Bytes) (s1 : ContentStore)
    (h0 : s.read k = none ∨ s.read k = some v)
    (h : ContentStore.Store w1 s k v = Except.ok s1) :
    ContentStore.Store w2 s1 k v = Except.ok s1 ∧ s1.read k = some v := by
  cases hr : s.read k with
  | some w =>
    rw [ContentStore.Store, hr] at h
    have hs : s = s1 := by
      simpa using h
    subst hs
    have hv : s.read k = some v := by
      rcases h0 with h0 | h0
      · rw [hr] at h0
        cases h0
      · exact h0
    refine ⟨?_, hv⟩
    rw [ContentStore.Store, hv]
  | none =>
    rw [ContentStore.Store, hr] at h
    cases hw1 : w1 with
    | false =>
      rw [hw1] at h
      simp at h
    | true =>
      rw [hw1] at h
      simp only [if_pos] at h
      have hs : ({ entries := (k, v) :: s.entries } : ContentStore) = s1 := by
        simpa using h
      have hv : s1.read k = some v := by
        rw [← hs]
        simp [ContentStore.read]
      refine ⟨?_, hv⟩
      rw [ContentStore.Store, hv]

end Cas

namespace Cln

/-- Claim C6: `LsRemote` on a reachable remote with a pattern matching no
ref fails with the `ErrNoMatchingReference` sentinel; on an unreachable,
misnamed or auth-unavailable remote it fails with the `ErrCommandSpawn`
sentinel; the two sentinels are distinct values compared by identity. -/
theorem lsRemote_sentinels (g : GitRunner) (refs : List GitRef) (refPattern : String)
    (h : refs.filter (fun r => r.Ref = refPattern) = []) :
    g.LsRemote (Remote.reachable refs) refPattern =
      Except.error GitErr.ErrNoMatchingReference ∧
    g.LsRemote Remote.unreachable refPattern =
      Except.error GitErr.ErrCommandSpawn ∧
    GitErr.ErrNoMatchingReference ≠ GitErr.ErrCommandSpawn := by
  refine ⟨?_, rfl, by decide⟩
  simp only [GitRunner.LsRemote, h]

/-- Claim C7: `Clone` and `LsTree` on a client with no bound working
directory fail with the `ErrNoWorkDir` sentinel, and any client produced by
`WithWorkDir` passes `RequiresWorkDir`. -/
theorem workDir_guard (g : GitRunner) (remote : Remote) (lr : LocalRepo)
    (shallow : Bool) (depth : Nat) (branch ref treePath p : String)
    (h : g.workDir = none) :
    g.Clone remote shallow depth branch = Except.error GitErr.ErrNoWorkDir ∧
    g.LsTree ref treePath lr = Except.error GitErr.ErrNoWorkDir ∧
    (g.WithWorkDir p).RequiresWorkDir = Except.ok () := by
  refine ⟨?_, ?_, rfl⟩
  · simp only [GitRunner.Clone, h]
  · simp only [GitRunner.LsTree, h]

end Cln

namespace Catalog

/-- Witness for claim C1's theorem: a concrete failed fetch writes no
marker into the empty filesystem. -/
theorem clone_fail_writes_no_marker_wit :
    noNewMarkers fsEmpty (clone wGetterFails repoTmp fsEmpty).snd = true :=
  clone_fail_writes_no_marker wGetterFails repoTmp fsEmpty CloneErr.getterGetErr
    (by decide) rfl

/-- Witness for claim C2's theorem: preparing over a leftover partial repo
directory yields a state where the repo directory is absent. -/
theorem prepareCloneDirectory_hygiene_wit :
    fsC2Out.fileExists repoC2Out.path = false ∨
    fsC2Out.fileExists (repoC2Out.path ++ [cloneCompleteSentinel]) = true :=
  prepareCloneDirectory_hygiene wBase repoC2 (["t"]) fsC2 repoC2Out fsC2Out rfl

/-- Witness for claim C5's amended theorem: the concrete local-directory
run bypasses the network path and leaves the filesystem untouched. -/
theorem clone_localDir_bypass_wit :
    clone wLocal repoLocal fsLocal =
      (handleLocalDir wLocal repoLocal ("/mod"), fsLocal) :=
  clone_localDir_bypass wLocal repoLocal ("/mod") fsLocal rfl (by decide)

/-- Witness for claim C8's theorem at a concrete repo with an empty clone
URL. -/
theorem resolve_empty_uses_cwd_wit :
    resolveCloneURL wBase repoEmptyURL = Except.ok wBase.cwd ∧
    clone wBase repoEmptyURL fsEmpty = cloneResolved wBase repoEmptyURL wBase.cwd fsEmpty :=
  resolve_empty_uses_cwd wBase repoEmptyURL fsEmpty rfl rfl

/-- Witness for claim C10's theorem at a concrete `cas://` URL. -/
theorem newRepo_casScheme_wit :
    NewRepo wBase urlCas (["tmp"]) false fsEmpty =
      (Except.error CloneErr.casNotAllowed, fsEmpty) ∧
    NewRepo wBase urlCas (["tmp"]) true fsEmpty =
      NewRepoAfter wBase { cloneURL := trimPre urlCas casScheme, path := ["tmp"],
                           RemoteURL := "", BranchName := "", useCAS := true } fsEmpty ∧
    performClone wBase
      { cloneURL := trimPre urlCas casScheme, path := ["tmp"], RemoteURL := "",
        BranchName := "", useCAS := true }
      { SourceURL := trimPre urlCas casScheme, TargetPath := ["tmp"] } fsEmpty =
    performCloneCAS wBase
      { cloneURL := trimPre urlCas casScheme, path := ["tmp"], RemoteURL := "",
        BranchName := "", useCAS := true }
      { SourceURL := trimPre urlCas casScheme, TargetPath := ["tmp"] } fsEmpty :=
  newRepo_casScheme wBase urlCas (["tmp"]) fsEmpty (by decide)

/-- Witness for claim C9's theorem at branch `main` and a concrete hash. -/
theorem parseBranchName_headFormats_wit :
    parseBranchName repoInit (headRefContent ("main".data)) =
      Except.ok { repoInit with BranchName := String.mk (trimChars ("main".data)) } ∧
    parseBranchName repoInit ("0a1b2c".data) =
      Except.ok { repoInit with BranchName := String.mk ("0a1b2c".data) } :=
  parseBranchName_headFormats repoInit ("main".data) ("0a1b2c".data)
    (by decide) (by decide) (by decide) (by decide) (by decide)

end Catalog

namespace Cas

/-- Witness for claim C3's theorem: re-storing the already stored key
succeeds even when new writes would fail, and reads back the bytes. -/
theorem store_idempotent_wit :
    ContentStore.Store false storeOne ("k") ([1, 2, 3]) = Except.ok storeOne ∧
    storeOne.read ("k") = some ([1, 2, 3]) :=
  store_idempotent true false storeEmpty ("k") ([1, 2, 3]) storeOne (Or.inl rfl) rfl

end Cas

namespace Cln

/-- Witness for claim C6's theorem at a one-ref remote and an unmatched
pattern. -/
theorem lsRemote_sentinels_wit :
    GitRunner.LsRemote NewGitRunner (Remote.reachable [⟨"abc", "HEAD"⟩]) ("no-such") =
      Except.error GitErr.ErrNoMatchingReference ∧
    GitRunner.LsRemote NewGitRunner Remote.unreachable ("no-such") =
      Except.error GitErr.ErrCommandSpawn ∧
    GitErr.ErrNoMatchingReference ≠ GitErr.ErrCommandSpawn :=
  lsRemote_sentinels NewGitRunner [⟨"abc", "HEAD"⟩] ("no-such") (by decide)

/-- Witness for claim C7's theorem at the unbound `NewGitRunner`. -/
theorem workDir_guard_wit :
    GitRunner.Clone NewGitRunner Remote.unreachable true 1 ("main") =
      Except.error GitErr.ErrNoWorkDir ∧
    GitRunner.LsTree NewGitRunner ("HEAD") (".") LocalRepo.invalid =
      Except.error GitErr.ErrNoWorkDir ∧
    (NewGitRunner.WithWorkDir ("/tmp/x")).RequiresWorkDir = Except.ok () :=
  workDir_guard NewGitRunner Remote.unreachable LocalRepo.invalid true 1
    ("main") ("HEAD") (".") ("/tmp/x") rfl

end Cln
